import Mathlib

/-!
Verification of the Android blob-cache parser (`parse_blob_cache.py`).

The program reads a binary container: a 4-byte magic value followed by
records, each a 20-byte little-endian header (`<8s3I`: key, checksum,
blobOffset, payloadLength) and `payloadLength` payload bytes.  The payload
is split at the first occurrence of the JPEG start marker `FF D8 FF` into
metadata bytes and thumbnail bytes; the metadata is decoded by trying
utf-32-le then utf-16-le on its first four bytes, then matched against the
delimiter pattern `(.+?)\+(\d?)\+?(.+?)\+(\d\x7b10,16\x7d)\+?(.+)*`.

Bytes are modelled as `List Nat`, decoded text as a `List Nat` of code
points.  Python's backtracking regex engine is modelled by a specialised
matcher for the single pattern above, with the engine's preference order
(lazy groups shortest-first, greedy options taken when possible) realised
through `Option.orElse`.
-/

abbrev Bytes := List Nat

abbrev Text := List Nat

def jpeg_header : Bytes := [0xff, 0xd8, 0xff]

def magicBytes : Bytes := [0x10, 0x85, 0x24, 0xBD]

/-- `bytes.find(sub)` of Python, scanning from position `i`. -/
def pyFindAux (sub : Bytes) : Bytes → Nat → Int
  | [], i => if sub.isEmpty then (i : Int) else -1
  | b :: rest, i =>
    if sub.isPrefixOf (b :: rest) then (i : Int) else pyFindAux sub rest (i + 1)

/-- Python `data.find(sub)`: least index where `sub` occurs, else `-1`. -/
def pyFind (data sub : Bytes) : Int := pyFindAux sub data 0

/-- Python slice `data[:j]`, allowing a negative bound counted from the end. -/
def pySliceTo (data : Bytes) (j : Int) : Bytes :=
  if 0 ≤ j then data.take j.toNat else data.take (data.length - (-j).toNat)

/-- Python slice `data[j:]`, allowing a negative bound counted from the end. -/
def pySliceFrom (data : Bytes) (j : Int) : Bytes :=
  if 0 ≤ j then data.drop j.toNat else data.drop (data.length - (-j).toNat)

/-- `metadata = data[:data.find(jpeg_header)]`,
`thumbnail = data[data.find(jpeg_header):]` from the source loop. -/
def segmentPayload (data : Bytes) : Bytes × Bytes :=
  let e := pyFind data jpeg_header
  (pySliceTo data e, pySliceFrom data e)

/-- A Unicode scalar value: what one decoded code unit may denote. -/
def validScalar (n : Nat) : Bool :=
  n ≤ 0x10FFFF && !(0xD800 ≤ n && n ≤ 0xDFFF)

/-- Strict utf-32-le decoding: `none` models `UnicodeDecodeError`. -/
def decodeUtf32le : Bytes → Option Text
  | [] => some []
  | a :: b :: c :: d :: rest =>
    let n := a + 256 * b + 65536 * c + 16777216 * d
    if validScalar n then (decodeUtf32le rest).map (n :: ·) else none
  | _ => none

/-- Strict utf-16-le decoding with surrogate pairing: `none` models
`UnicodeDecodeError`. -/
def decodeUtf16le : Bytes → Option Text
  | [] => some []
  | a :: b :: rest =>
    let w := a + 256 * b
    if w < 0xD800 || 0xDFFF < w then (decodeUtf16le rest).map (w :: ·)
    else if w ≤ 0xDBFF then
      match rest with
      | c :: d :: rest2 =>
        let w2 := c + 256 * d
        if 0xDC00 ≤ w2 && w2 ≤ 0xDFFF then
          (decodeUtf16le rest2).map ((0x10000 + (w - 0xD800) * 1024 + (w2 - 0xDC00)) :: ·)
        else none
      | _ => none
    else none
  | _ => none

/-- utf-32-le decoding with the `ignore` error handler: undecodable units
and truncated tails are skipped. -/
def decodeUtf32leIgnore : Bytes → Text
  | a :: b :: c :: d :: rest =>
    let n := a + 256 * b + 65536 * c + 16777216 * d
    if validScalar n then n :: decodeUtf32leIgnore rest else decodeUtf32leIgnore rest
  | _ => []

/-- utf-16-le decoding with the `ignore` error handler: unpaired surrogates
and truncated tails are skipped. -/
def decodeUtf16leIgnore : Bytes → Text
  | a :: b :: c :: d :: rest2 =>
    let w := a + 256 * b
    if w < 0xD800 || 0xDFFF < w then w :: decodeUtf16leIgnore (c :: d :: rest2)
    else if w ≤ 0xDBFF then
      let w2 := c + 256 * d
      if 0xDC00 ≤ w2 && w2 ≤ 0xDFFF then
        (0x10000 + (w - 0xD800) * 1024 + (w2 - 0xDC00)) :: decodeUtf16leIgnore rest2
      else decodeUtf16leIgnore (c :: d :: rest2)
    else decodeUtf16leIgnore (c :: d :: rest2)
  | [a, b, _] =>
    let w := a + 256 * b
    if w < 0xD800 || 0xDFFF < w then [w] else []
  | [a, b] =>
    let w := a + 256 * b
    if w < 0xD800 || 0xDFFF < w then [w] else []
  | _ => []

inductive Codec where
  | utf32le
  | utf16le
deriving DecidableEq

/-- `data.decode(codec)` inside the `try` of `detect_codec`. -/
def tryDecode : Codec → Bytes → Option Text
  | .utf32le, b => decodeUtf32le b
  | .utf16le, b => decodeUtf16le b

/-- `data.decode(codec, 'ignore')` used on the full metadata blob. -/
def decodeIgnore : Codec → Bytes → Text
  | .utf32le, b => decodeUtf32leIgnore b
  | .utf16le, b => decodeUtf16leIgnore b

/-- The loop of `detect_codec` over its candidate list. -/
def detectCodecList : List (Codec × Nat) → Bytes → Option (Codec × Nat)
  | [], _ => none
  | (c, w) :: rest, data =>
    if (tryDecode c data).isSome then some (c, w) else detectCodecList rest data

/-- The default candidate tuple of `detect_codec`. -/
def codecCandidates : List (Codec × Nat) := [(.utf32le, 4), (.utf16le, 2)]

/-- `detect_codec(data)`: first candidate that decodes, with its code-point
width; `none` models the fatal `sys.exit(1)` path. -/
def detect_codec (data : Bytes) : Option (Codec × Nat) :=
  detectCodecList codecCandidates data

/-- `.` of the pattern: any character except a newline. -/
def isDotChar (c : Nat) : Bool := c ≠ 10

/-- `\d` of the pattern (the metadata uses ASCII digits). -/
def isDigitChar (c : Nat) : Bool := 48 ≤ c && c ≤ 57

/-- The five capture groups of `meta_re`, as `findall` returns them:
a group that did not participate is the empty string. -/
structure MetaMatch where
  g1 : Text
  g2 : Text
  g3 : Text
  g4 : Text
  g5 : Text
deriving DecidableEq

/-- Suffix `\+?(.+)*` of `meta_re` after group 4: greedily consume one `+`,
then group 5 is the greedy run of non-newline characters (one `(.+)`
repetition; a second repetition always fails). -/
def group5 (s : Text) : Text :=
  match s with
  | c :: r => if c = 43 then r.takeWhile isDotChar else (c :: r).takeWhile isDotChar
  | [] => []

/-- Matcher for `(.+?)\+(\d\x7b10,16\x7d)\+?(.+)*` after a nonempty lazy
group 3 prefix `acc`: at each position first try to finish
(`\+` then 10–16 digits), otherwise extend group 3 by one character. -/
def match34From (acc : Text) : Text → Option (Text × Text × Text)
  | p :: rest =>
    (if p = 43 then
       (let digits := rest.takeWhile isDigitChar
        let g4len := min 16 digits.length
        if 10 ≤ g4len then some (acc, rest.take g4len, group5 (rest.drop g4len))
        else none)
     else none)
    <|> (if isDotChar p then match34From (acc ++ [p]) rest else none)
  | [] => none

/-- Groups 3–5 of `meta_re` from the current position. -/
def match34 : Text → Option (Text × Text × Text)
  | c :: rest => if isDotChar c then match34From [c] rest else none
  | [] => none

/-- `\+?` then groups 3–5, with a fixed group 2. -/
def matchTail34 (g2 : Text) (t : Text) : Option (Text × Text × Text × Text) :=
  (match t with
   | q :: t2 =>
     if q = 43 then (match34 t2).map (fun g => (g2, g.1, g.2.1, g.2.2)) else none
   | [] => none)
  <|> (match34 t).map (fun g => (g2, g.1, g.2.1, g.2.2))

/-- Groups 2–5 of `meta_re` from the position after the first `\+`:
`(\d?)` greedily takes a digit when present. -/
def matchInner : Text → Option (Text × Text × Text × Text)
  | d :: rest =>
    if isDigitChar d then (matchTail34 [d] rest) <|> (matchTail34 [] (d :: rest))
    else matchTail34 [] (d :: rest)
  | [] => matchTail34 [] []

/-- Lazy group 1 with accumulated prefix `acc`: at each position first try
`\+` and the rest of the pattern, otherwise extend group 1. -/
def matchG1From (acc : Text) : Text → Option MetaMatch
  | p :: rest =>
    (if p = 43 then
       (matchInner rest).map (fun g => ⟨acc, g.1, g.2.1, g.2.2.1, g.2.2.2⟩)
     else none)
    <|> (if isDotChar p then matchG1From (acc ++ [p]) rest else none)
  | [] => none

/-- Attempt of `meta_re` at the start of `s`. -/
def metaMatchAt : Text → Option MetaMatch
  | c :: rest => if isDotChar c then matchG1From [c] rest else none
  | [] => none

/-- `meta_re.findall(s)[0]`: the leftmost match; `none` models the
`IndexError` taken when `findall` returns no match. -/
def metaFindFirst : Text → Option MetaMatch
  | [] => none
  | c :: rest => (metaMatchAt (c :: rest)) <|> metaFindFirst rest

/-- The four fields of `unpack('<8s3I', rec_header)`. -/
structure RecordHeaderS where
  key : Bytes
  chksum : Nat
  recoffset : Nat
  payloadlen : Nat
deriving DecidableEq

/-- Little-endian 32-bit value of the first four bytes. -/
def u32leOf (b : Bytes) : Nat :=
  b.getD 0 0 + 256 * b.getD 1 0 + 65536 * b.getD 2 0 + 16777216 * b.getD 3 0

/-- `unpack('<8s3I', b)` on a 20-byte buffer. -/
def unpackHeader20 (b : Bytes) : RecordHeaderS :=
  ⟨b.take 8, u32leOf (b.drop 8), u32leOf (b.drop 12), u32leOf (b.drop 16)⟩

/-- The 20 header bytes of the record starting at `offset`. -/
def rawHeaderAt (file : Bytes) (offset : Nat) : Bytes :=
  (file.drop offset).take 20

/-- The unpacked header of the record starting at `offset`. -/
def headerAt (file : Bytes) (offset : Nat) : RecordHeaderS :=
  unpackHeader20 (rawHeaderAt file offset)

/-- `f.read(payloadlen)` for the record at `offset`: Python's `read` clamps
at end-of-file, so fewer bytes may be returned than declared. -/
def payloadAt (file : Bytes) (offset : Nat) : Bytes :=
  ((file.drop offset).drop 20).take (headerAt file offset).payloadlen

/-- One emitted record: everything the loop hands to a sink. -/
structure BlobRec where
  offset : Nat
  header : RecordHeaderS
  rawHeader : Bytes
  metadata : Bytes
  thumbnail : Bytes
  fields : Option MetaMatch
deriving DecidableEq

/-- The record the loop body constructs at `offset` (database path):
segment the payload, detect the codec of the first four metadata bytes,
decode the metadata with `ignore`, and take the leftmost `meta_re` match;
`fields = none` models the `IndexError` branch `meta_list = [None] * 5`. -/
def recAt (file : Bytes) (offset : Nat) : BlobRec :=
  let md := segmentPayload (payloadAt file offset)
  { offset := offset
    header := headerAt file offset
    rawHeader := rawHeaderAt file offset
    metadata := md.1
    thumbnail := md.2
    fields :=
      match detect_codec (md.1.take 4) with
      | some cw => metaFindFirst (decodeIgnore cw.1 md.1)
      | none => none }

/-- Fatal ways the loop can stop before end-of-file. -/
inductive LoopErr where
  /-- fewer than 20 bytes remain: `unpack` raises `struct.error`. -/
  | headerTruncated (offset : Nat)
  /-- `detect_codec` found no codec: `sys.exit(1)`. -/
  | codecFailure (offset : Nat)
deriving DecidableEq

/-- The record-reading loop with explicit fuel (each iteration consumes at
least 20 bytes, so `file.length - offset` is always enough fuel). -/
def readLoopF : Nat → Bytes → Nat → List BlobRec × Option LoopErr
  | 0, _, _ => ([], none)
  | f + 1, file, offset =>
    if offset = file.length then ([], none)
    else if file.length - offset < 20 then ([], some (.headerTruncated offset))
    else if detect_codec ((segmentPayload (payloadAt file offset)).1.take 4) = none then
      ([], some (.codecFailure offset))
    else
      let r := readLoopF f file (offset + 20 + (payloadAt file offset).length)
      (recAt file offset :: r.1, r.2)

/-- The record-reading loop of `main` (database path), from `offset`. -/
def readLoop (file : Bytes) (offset : Nat) : List BlobRec × Option LoopErr :=
  readLoopF (file.length - offset) file offset

/-- Whole-file parse: check the 4-byte magic, then run the loop from
offset 4.  `none` models the fatal "Not a blob cache file" exit. -/
def parseFile (file : Bytes) : Option (List BlobRec × Option LoopErr) :=
  if file.take 4 = magicBytes then some (readLoop file 4) else none

/-- What sanitize mode writes for one record:
`rec_header`, `metadata`, then `jpeg_header + b'\x00' * len(thumbnail[4:])`. -/
def sanitizeRecOut (file : Bytes) (offset : Nat) : Bytes :=
  let md := segmentPayload (payloadAt file offset)
  rawHeaderAt file offset ++ md.1 ++ jpeg_header ++ List.replicate (md.2.drop 4).length 0

/-- The sanitize-mode loop with fuel: the `continue` in the source skips
codec detection and metadata parsing entirely. -/
def sanitizeLoopF : Nat → Bytes → Nat → Bytes × Option LoopErr
  | 0, _, _ => ([], none)
  | f + 1, file, offset =>
    if offset = file.length then ([], none)
    else if file.length - offset < 20 then ([], some (.headerTruncated offset))
    else
      let r := sanitizeLoopF f file (offset + 20 + (payloadAt file offset).length)
      (sanitizeRecOut file offset ++ r.1, r.2)

/-- The sanitize-mode loop of `main`, from `offset`. -/
def sanitizeLoop (file : Bytes) (offset : Nat) : Bytes × Option LoopErr :=
  sanitizeLoopF (file.length - offset) file offset

/-- Whole-file sanitize: magic check, write the file header, then the loop. -/
def sanitizeFile (file : Bytes) : Option (Bytes × Option LoopErr) :=
  if file.take 4 = magicBytes then
    some ((file.take 4 ++ (sanitizeLoop file 4).1, (sanitizeLoop file 4).2))
  else none

/-- The row the database path inserts into `blob` for one record, after
`if not xtra: xtra = None` — the only falsy-to-null normalisation. -/
structure BlobRow where
  rowOffset : Nat
  internalPath : Option Text
  unk : Option Text
  originalFilePath : Option Text
  timestamp : Option Text
  extra : Option Text
  thumbnail : Bytes
  rawMetadata : Bytes
deriving DecidableEq

/-- Build the inserted `blob` row from an emitted record. -/
def rowOf (r : BlobRec) : BlobRow :=
  { rowOffset := r.offset
    internalPath := r.fields.map MetaMatch.g1
    unk := r.fields.map MetaMatch.g2
    originalFilePath := r.fields.map MetaMatch.g3
    timestamp := r.fields.map MetaMatch.g4
    extra :=
      match r.fields with
      | none => none
      | some m => if m.g5 = [] then none else some m.g5
    thumbnail := r.thumbnail
    rawMetadata := r.metadata }

/-- Code points of a string literal, for writing concrete metadata texts. -/
def strText (s : String) : Text := s.data.map Char.toNat

/-- UTF-16-LE bytes of a text of BMP code points. -/
def utf16leBytesOf (t : Text) : Bytes :=
  t.foldr (fun c acc => c % 256 :: c / 256 :: acc) []

/-- Little-endian 4-byte encoding of a 32-bit value. -/
def u32leBytes (n : Nat) : Bytes :=
  [n % 256, n / 256 % 256, n / 65536 % 256, n / 16777216 % 256]

/-- A 20-byte record header from its fields. -/
def hdrBytes (key : Bytes) (chks blobOff plen : Nat) : Bytes :=
  key ++ u32leBytes chks ++ u32leBytes blobOff ++ u32leBytes plen

/-- An abstract record used to build well-tiled containers. -/
structure RawRecord where
  key : Bytes
  chksum : Nat
  blobOffset : Nat
  payload : Bytes

/-- The container bytes of one abstract record: its 20-byte header with
`payloadLength` set to the actual payload length, then the payload. -/
def encodeRecord (r : RawRecord) : Bytes :=
  hdrBytes r.key r.chksum r.blobOffset r.payload.length ++ r.payload

/-- A container whose records tile it exactly: magic, then the records
back-to-back. -/
def encodeContainer (rs : List RawRecord) : Bytes :=
  magicBytes ++ (rs.map encodeRecord).flatten

def keyABC : Bytes := [65, 66, 67, 68, 69, 70, 71, 72]

/-- Container for the redaction length check: one record whose thumbnail is
the marker plus two content bytes. -/
def c1file : Bytes := magicBytes ++ hdrBytes keyABC 1 0 5 ++ [255, 216, 255, 7, 8]

/-- Container whose single payload contains no `FF D8 FF` marker. -/
def c2file : Bytes := magicBytes ++ hdrBytes keyABC 0 0 3 ++ [1, 2, 3]

/-- Container whose single record declares `payloadLength = 100` but is
followed by only 3 bytes. -/
def c3file : Bytes := magicBytes ++ hdrBytes keyABC 0 0 100 ++ [255, 216, 255]

/-- Metadata bytes of the specification's one-record scenario. -/
def c5meta : Bytes := utf16leBytesOf (strText "thumb1+0+/sdcard/img.jpg+1600000000+")

/-- The specification's one-record scenario container. -/
def c5file : Bytes :=
  magicBytes ++ hdrBytes keyABC 1 0 85 ++ c5meta ++ [255, 216, 255] ++ List.replicate 10 0

/-- Container whose single payload starts with the marker: empty metadata. -/
def c9file : Bytes := magicBytes ++ hdrBytes keyABC 0 0 4 ++ [255, 216, 255, 9]

theorem payloadAt_len_le (file : Bytes) (offset : Nat) :
    (payloadAt file offset).length ≤ file.length - offset - 20 := by
  simp [payloadAt]
  omega

theorem readLoopF_congr (f1 : Nat) : ∀ (f2 : Nat) (file : Bytes) (offset : Nat),
    offset ≤ file.length → file.length - offset ≤ f1 → file.length - offset ≤ f2 →
    readLoopF f1 file offset = readLoopF f2 file offset := by
  induction f1 with
  | zero =>
    intro f2 file offset h0 h1 _
    have he : offset = file.length := by omega
    cases f2 with
    | zero => rfl
    | succ f2 => simp [readLoopF, he]
  | succ f1 ih =>
    intro f2 file offset h0 h1 h2
    cases f2 with
    | zero =>
      have he : offset = file.length := by omega
      simp [readLoopF, he]
    | succ f2 =>
      by_cases he : offset = file.length
      · simp [readLoopF, he]
      · by_cases ht : file.length - offset < 20
        · simp [readLoopF, he, ht]
        · by_cases hc : detect_codec ((segmentPayload (payloadAt file offset)).1.take 4) = none
          · simp [readLoopF, he, ht, hc]
          · have hle := payloadAt_len_le file offset
            have hrec := ih f2 file (offset + 20 + (payloadAt file offset).length)
              (by omega) (by omega) (by omega)
            simp [readLoopF, he, ht, hc, hrec]

theorem readLoop_done (file : Bytes) (offset : Nat) (h : offset = file.length) :
    readLoop file offset = ([], none) := by
  subst h
  simp [readLoop, readLoopF]

theorem readLoop_trunc (file : Bytes) (offset : Nat) (h1 : offset < file.length)
    (h2 : file.length - offset < 20) :
    readLoop file offset = ([], some (.headerTruncated offset)) := by
  have hrem : file.length - offset = (file.length - offset - 1) + 1 := by omega
  rw [readLoop, hrem]
  have hne : ¬ offset = file.length := by omega
  simp [readLoopF, hne, h2]

theorem readLoop_codecFail (file : Bytes) (offset : Nat) (h1 : offset < file.length)
    (h2 : 20 ≤ file.length - offset)
    (h3 : detect_codec ((segmentPayload (payloadAt file offset)).1.take 4) = none) :
    readLoop file offset = ([], some (.codecFailure offset)) := by
  have hrem : file.length - offset = (file.length - offset - 1) + 1 := by omega
  rw [readLoop, hrem]
  have hne : ¬ offset = file.length := by omega
  have hnt : ¬ file.length - offset < 20 := by omega
  simp [readLoopF, hne, hnt, h3]

theorem readLoop_step (file : Bytes) (offset : Nat) (h1 : offset < file.length)
    (h2 : 20 ≤ file.length - offset)
    (h3 : detect_codec ((segmentPayload (payloadAt file offset)).1.take 4) ≠ none) :
    readLoop file offset =
      (recAt file offset :: (readLoop file (offset + 20 + (payloadAt file offset).length)).1,
       (readLoop file (offset + 20 + (payloadAt file offset).length)).2) := by
  have hle := payloadAt_len_le file offset
  have hrem : file.length - offset = (file.length - offset - 1) + 1 := by omega
  rw [readLoop, hrem]
  have hne : ¬ offset = file.length := by omega
  have hnt : ¬ file.length - offset < 20 := by omega
  have hcongr : readLoopF (file.length - offset - 1) file
      (offset + 20 + (payloadAt file offset).length)
      = readLoop file (offset + 20 + (payloadAt file offset).length) := by
    rw [readLoop]
    exact readLoopF_congr _ _ _ _ (by omega) (by omega) (by omega)
  simp [readLoopF, hne, hnt, h3, hcongr]

theorem u32leOf_u32leBytes (n : Nat) (rest : Bytes) (h : n < 4294967296) :
    u32leOf (u32leBytes n ++ rest) = n := by
  simp [u32leOf, u32leBytes, List.getD_cons_zero, List.getD_cons_succ]
  omega

theorem hdrBytes_length (key : Bytes) (c o l : Nat) (h8 : key.length = 8) :
    (hdrBytes key c o l).length = 20 := by
  simp [hdrBytes, u32leBytes, h8]

theorem encodeRecord_length (r : RawRecord) (h8 : r.key.length = 8) :
    (encodeRecord r).length = 20 + r.payload.length := by
  simp [encodeRecord, hdrBytes_length r.key _ _ _ h8]

theorem headerAt_of_encode (file : Bytes) (offset : Nat) (r : RawRecord) (rest : Bytes)
    (h8 : r.key.length = 8) (h32 : r.payload.length < 4294967296)
    (hdrop : file.drop offset = encodeRecord r ++ rest) :
    (headerAt file offset).payloadlen = r.payload.length ∧
    payloadAt file offset = r.payload := by
  have hassoc : encodeRecord r ++ rest = hdrBytes r.key r.chksum r.blobOffset r.payload.length
      ++ (r.payload ++ rest) := by
    simp [encodeRecord]
  have hlen20 : (hdrBytes r.key r.chksum r.blobOffset r.payload.length).length = 20 :=
    hdrBytes_length _ _ _ _ h8
  have hraw : rawHeaderAt file offset = hdrBytes r.key r.chksum r.blobOffset r.payload.length := by
    rw [rawHeaderAt, hdrop, hassoc, List.take_left' hlen20]
  have hdrop16 : (hdrBytes r.key r.chksum r.blobOffset r.payload.length).drop 16
      = u32leBytes r.payload.length := by
    have hlen16 : (r.key ++ u32leBytes r.chksum ++ u32leBytes r.blobOffset).length = 16 := by
      simp [u32leBytes, h8]
    calc (hdrBytes r.key r.chksum r.blobOffset r.payload.length).drop 16
        = ((r.key ++ u32leBytes r.chksum ++ u32leBytes r.blobOffset)
            ++ u32leBytes r.payload.length).drop 16 := by
          simp [hdrBytes]
      _ = u32leBytes r.payload.length := List.drop_left' hlen16
  have hplen : (headerAt file offset).payloadlen = r.payload.length := by
    rw [headerAt, hraw, unpackHeader20]
    show u32leOf ((hdrBytes r.key r.chksum r.blobOffset r.payload.length).drop 16)
        = r.payload.length
    rw [hdrop16]
    have := u32leOf_u32leBytes r.payload.length [] h32
    simpa using this
  refine ⟨hplen, ?_⟩
  rw [payloadAt, hplen, hdrop, hassoc, List.drop_left' hlen20]
  exact List.take_left' rfl

theorem drop_next_of_encode (file : Bytes) (offset : Nat) (r : RawRecord) (rest : Bytes)
    (h8 : r.key.length = 8)
    (hdrop : file.drop offset = encodeRecord r ++ rest) :
    file.drop (offset + 20 + r.payload.length) = rest := by
  have henc : (encodeRecord r).length = 20 + r.payload.length := encodeRecord_length r h8
  have : file.drop (offset + 20 + r.payload.length)
      = (file.drop offset).drop (20 + r.payload.length) := by
    rw [List.drop_drop]
    ring_nf
  rw [this, hdrop, List.drop_left' henc]

theorem readLoop_tiled (rs : List RawRecord) :
    ∀ (file : Bytes) (offset : Nat),
      offset ≤ file.length →
      file.drop offset = (rs.map encodeRecord).flatten →
      (∀ r ∈ rs, r.key.length = 8) →
      (∀ r ∈ rs, r.payload.length < 4294967296) →
      (∀ r ∈ rs, detect_codec ((segmentPayload r.payload).1.take 4) ≠ none) →
      (readLoop file offset).2 = none ∧
      (readLoop file offset).1.length = rs.length ∧
      ((readLoop file offset).1.map (fun rec => 20 + rec.header.payloadlen)).sum
        = file.length - offset := by
  induction rs with
  | nil =>
    intro file offset hle hdrop _ _ _
    have h0 : file.length - offset = 0 := by
      have hlen := congrArg List.length hdrop
      simpa using hlen
    have he : offset = file.length := by omega
    rw [readLoop_done file offset he]
    simpa using h0.symm
  | cons r rest ih =>
    intro file offset hle hdrop h8 h32 hc
    have hflat : (List.map encodeRecord (r :: rest)).flatten
        = encodeRecord r ++ (List.map encodeRecord rest).flatten := by simp
    rw [hflat] at hdrop
    have h8r : r.key.length = 8 := h8 r (by simp)
    have h32r : r.payload.length < 4294967296 := h32 r (by simp)
    obtain ⟨hplen, hpay⟩ := headerAt_of_encode file offset r _ h8r h32r hdrop
    have hrem : file.length - offset
        = 20 + r.payload.length + ((rest.map encodeRecord).flatten).length := by
      have hlen := congrArg List.length hdrop
      rw [List.length_drop, List.length_append, encodeRecord_length r h8r] at hlen
      omega
    have h1 : offset < file.length := by omega
    have h2 : 20 ≤ file.length - offset := by omega
    have hcr : detect_codec ((segmentPayload (payloadAt file offset)).1.take 4) ≠ none := by
      rw [hpay]
      exact hc r (by simp)
    have hpaylen : (payloadAt file offset).length = r.payload.length := by rw [hpay]
    have hnextdrop : file.drop (offset + 20 + r.payload.length)
        = (rest.map encodeRecord).flatten :=
      drop_next_of_encode file offset r _ h8r hdrop
    have hnextle : offset + 20 + r.payload.length ≤ file.length := by omega
    obtain ⟨ihsnd, ihlen, ihsum⟩ := ih file (offset + 20 + r.payload.length) hnextle hnextdrop
      (fun x hx => h8 x (by simp [hx])) (fun x hx => h32 x (by simp [hx]))
      (fun x hx => hc x (by simp [hx]))
    have hstep := readLoop_step file offset h1 h2 hcr
    rw [hpaylen] at hstep
    rw [hstep]
    refine ⟨ihsnd, by simpa using ihlen, ?_⟩
    have hrec : (recAt file offset).header.payloadlen = r.payload.length := by
      simp [recAt, hplen]
    simp only [List.map_cons, List.sum_cons, hrec, ihsum]
    omega

theorem pyFind_eq_zero (data sub : Bytes) (h : sub.isPrefixOf data = true) :
    pyFind data sub = 0 := by
  cases data with
  | nil =>
    cases sub with
    | nil => rfl
    | cons a l => simp [List.isPrefixOf] at h
  | cons b rest => simp [pyFind, pyFindAux, h]

theorem segmentPayload_marker_first (data : Bytes) (h : jpeg_header.isPrefixOf data = true) :
    segmentPayload data = ([], data) := by
  simp [segmentPayload, pyFind_eq_zero data jpeg_header h, pySliceTo, pySliceFrom]

theorem segmentPayload_no_marker (data : Bytes) (h : pyFind data jpeg_header = -1) :
    segmentPayload data = (data.take (data.length - 1), data.drop (data.length - 1)) := by
  rw [segmentPayload]
  simp only [h]
  norm_num [pySliceTo, pySliceFrom]

/-- C1: evaluation at a failing input.  The claim (and the code's own
comment) say redaction emits the 3-byte marker plus zero bytes filling the
remainder of the thumbnail's length, keeping the total length.  The code
writes `jpeg_header + b'\x00' * len(thumbnail[4:])`: for this one-record
container with a 5-byte thumbnail, the output is 28 bytes while the input
is 29, so the redacted record is one byte shorter than the `payloadLength`
its own emitted header still declares. -/
theorem sanitize_output_length_mismatch :
    sanitizeFile c1file
      = some (magicBytes ++ hdrBytes keyABC 1 0 5 ++ [255, 216, 255, 0], none) ∧
    c1file.length = 29 ∧
    (magicBytes ++ hdrBytes keyABC 1 0 5 ++ [255, 216, 255, 0]).length = 28 := by decide

/-- C2 (counterexample): for the container whose single 3-byte payload
`[1, 2, 3]` contains no `FF D8 FF` marker, no error of any kind is
produced (the error component is `none`) and the thumbnail is only the
final payload byte `[3]`, not the full payload from position 0 as the
claim states. -/
theorem no_marker_counterexample :
    parseFile c2file = some ([recAt c2file 4], none) ∧
    payloadAt c2file 4 = [1, 2, 3] ∧
    (recAt c2file 4).thumbnail = [3] ∧
    (recAt c2file 4).thumbnail ≠ payloadAt c2file 4 := by decide

/-- C2 (amended): when the marker does not occur in the payload,
`data.find` returns `-1` and the Python slices `data[:-1]` / `data[-1:]`
make the metadata all but the last payload byte and the thumbnail exactly
the last payload byte; no error is raised or reported, and the loop
continues with the next record. -/
theorem no_marker_fallback (file : Bytes) (offset : Nat)
    (h1 : offset < file.length) (h2 : 20 ≤ file.length - offset)
    (hfind : pyFind (payloadAt file offset) jpeg_header = -1)
    (hcodec : detect_codec
      (((payloadAt file offset).take ((payloadAt file offset).length - 1)).take 4) ≠ none) :
    (recAt file offset).metadata
      = (payloadAt file offset).take ((payloadAt file offset).length - 1) ∧
    (recAt file offset).thumbnail
      = (payloadAt file offset).drop ((payloadAt file offset).length - 1) ∧
    readLoop file offset =
      (recAt file offset :: (readLoop file (offset + 20 + (payloadAt file offset).length)).1,
       (readLoop file (offset + 20 + (payloadAt file offset).length)).2) := by
  have hseg := segmentPayload_no_marker _ hfind
  refine ⟨by simp [recAt, hseg], by simp [recAt, hseg], ?_⟩
  apply readLoop_step file offset h1 h2
  rw [hseg]
  exact hcodec

/-- C2 witness: the amended behaviour at the concrete marker-free container. -/
theorem no_marker_fallback_witness :
    (recAt c2file 4).metadata = (payloadAt c2file 4).take ((payloadAt c2file 4).length - 1) ∧
    (recAt c2file 4).thumbnail = (payloadAt c2file 4).drop ((payloadAt c2file 4).length - 1) :=
  have h := no_marker_fallback c2file 4 (by decide) (by decide) (by decide) (by decide)
  ⟨h.1, h.2.1⟩

/-- C3 (counterexample): for the container whose single record declares
`payloadLength = 100` while only 3 bytes remain after its header, no
error is produced: the record is emitted with the short payload and the
loop terminates normally at end-of-file, instead of the claimed
TruncationError abort. -/
theorem overdeclared_payload_counterexample :
    parseFile c3file = some ([recAt c3file 4], none) ∧
    (headerAt c3file 4).payloadlen = 100 ∧
    c3file.length = 27 := by decide

/-- C3 (amended): if fewer than 20 bytes remain where a header is
expected, the loop aborts (`unpack` raises `struct.error`) and records
already emitted stay in the returned list, the error being passed through
unchanged; but a record whose declared `payloadLength` exceeds the
remaining bytes raises nothing: `f.read` silently returns the remaining
bytes and the loop then terminates normally at end-of-file. -/
theorem truncation_behavior :
    (∀ (file : Bytes) (offset : Nat), offset < file.length → file.length - offset < 20 →
      readLoop file offset = ([], some (.headerTruncated offset))) ∧
    (∀ (file : Bytes) (offset : Nat), 20 ≤ file.length - offset →
      file.length - offset - 20 < (headerAt file offset).payloadlen →
      detect_codec ((segmentPayload (payloadAt file offset)).1.take 4) ≠ none →
      readLoop file offset = ([recAt file offset], none)) ∧
    (∀ (file : Bytes) (offset : Nat) (e : LoopErr) (rs : List BlobRec),
      offset < file.length → 20 ≤ file.length - offset →
      detect_codec ((segmentPayload (payloadAt file offset)).1.take 4) ≠ none →
      readLoop file (offset + 20 + (payloadAt file offset).length) = (rs, some e) →
      readLoop file offset = (recAt file offset :: rs, some e)) := by
  refine ⟨?_, ?_, ?_⟩
  · intro file offset h1 h2
    exact readLoop_trunc file offset h1 h2
  · intro file offset h2 hover hc
    have h1 : offset < file.length := by omega
    have hd : (payloadAt file offset).length = file.length - offset - 20 := by
      simp only [payloadAt, List.length_take, List.length_drop]
      omega
    have hstep := readLoop_step file offset h1 h2 hc
    have hnext : offset + 20 + (payloadAt file offset).length = file.length := by omega
    rw [hnext, readLoop_done file file.length rfl] at hstep
    simpa using hstep
  · intro file offset e rs h1 h2 hc hrest
    have hstep := readLoop_step file offset h1 h2 hc
    rw [hrest] at hstep
    simpa using hstep

/-- C3 witness: a 7-byte file leaves 3 bytes after the magic, so the
header read aborts the loop. -/
theorem truncation_behavior_witness :
    readLoop [16, 133, 36, 189, 0, 0, 0] 4 = ([], some (.headerTruncated 4)) :=
  truncation_behavior.1 [16, 133, 36, 189, 0, 0, 0] 4 (by decide) (by decide)

/-- C4 (counterexample): on `"thumb1+0++1600000000+"` — internalPath,
optional digit, a 10-digit timestamp and delimiters with field 3 omitted —
the grammar does match, but group 3 is captured as the literal string
`"+"`, not left absent, because `meta_re`'s third group `(.+?)` requires
at least one character and therefore consumes a delimiter. -/
theorem optional_field3_counterexample :
    metaFindFirst (strText "thumb1+0++1600000000+") =
      some ⟨strText "thumb1", strText "0", strText "+", strText "1600000000", []⟩ ∧
    strText "+" ≠ ([] : Text) := by decide

/-- C4 (amended): for metadata text that omits field 3 (such as
`"thumb1+0++1600000000+"`) the parser does not return the all-null
unparsed result: internalPath, unk and timestamp are extracted as
claimed, but originalFilePath is the captured delimiter `"+"` rather
than absent. -/
theorem optional_field3_amended :
    metaFindFirst (strText "thumb1+0++1600000000+") ≠ none ∧
    (metaFindFirst (strText "thumb1+0++1600000000+")).map MetaMatch.g1
      = some (strText "thumb1") ∧
    (metaFindFirst (strText "thumb1+0++1600000000+")).map MetaMatch.g2
      = some (strText "0") ∧
    (metaFindFirst (strText "thumb1+0++1600000000+")).map MetaMatch.g3
      = some (strText "+") ∧
    (metaFindFirst (strText "thumb1+0++1600000000+")).map MetaMatch.g4
      = some (strText "1600000000") := by decide

/-- C5: the specification's scenario container — magic, one record with
key `ABCDEFGH`, checksum 1, blobOffset 0, payloadLength 85, payload the
UTF-16LE text `"thumb1+0+/sdcard/img.jpg+1600000000+"` then `FF D8 FF`
and ten zero bytes — parses into exactly one record with the claimed
fields, a null Extra, and a 13-byte thumbnail. -/
theorem scenario_single_record :
    parseFile c5file = some ([recAt c5file 4], none) ∧
    (recAt c5file 4).fields =
      some ⟨strText "thumb1", strText "0", strText "/sdcard/img.jpg",
            strText "1600000000", []⟩ ∧
    (rowOf (recAt c5file 4)).extra = none ∧
    (recAt c5file 4).thumbnail.length = 13 ∧
    headerAt c5file 4 = ⟨keyABC, 1, 0, 85⟩ := by decide

/-- C6: a container tiled exactly by records (each header's
`payloadLength` equal to its actual payload length) parses to completion
with no error, emits one record per input record, and the sum of
`20 + payloadLength` over the emitted records plus the 4 magic bytes is
exactly the container's total length. -/
theorem record_tiling_sum (rs : List RawRecord)
    (h8 : ∀ r ∈ rs, r.key.length = 8)
    (h32 : ∀ r ∈ rs, r.payload.length < 4294967296)
    (hc : ∀ r ∈ rs, detect_codec ((segmentPayload r.payload).1.take 4) ≠ none) :
    parseFile (encodeContainer rs) = some (readLoop (encodeContainer rs) 4) ∧
    (readLoop (encodeContainer rs) 4).2 = none ∧
    (readLoop (encodeContainer rs) 4).1.length = rs.length ∧
    4 + ((readLoop (encodeContainer rs) 4).1.map
        (fun rec => 20 + rec.header.payloadlen)).sum
      = (encodeContainer rs).length := by
  have hmagic : (encodeContainer rs).take 4 = magicBytes := by
    rw [encodeContainer]
    exact List.take_left' rfl
  have hdrop : (encodeContainer rs).drop 4 = (rs.map encodeRecord).flatten := by
    rw [encodeContainer]
    exact List.drop_left' rfl
  have hle : 4 ≤ (encodeContainer rs).length := by
    rw [encodeContainer]
    simp [magicBytes]
  obtain ⟨hsnd, hlen, hsum⟩ := readLoop_tiled rs (encodeContainer rs) 4 hle hdrop h8 h32 hc
  exact ⟨by simp [parseFile, hmagic], hsnd, hlen, by omega⟩

/-- C6 witness: a one-record tiled container. -/
theorem record_tiling_sum_witness :
    4 + ((readLoop (encodeContainer [⟨keyABC, 1, 0, [255, 216, 255]⟩]) 4).1.map
        (fun rec => 20 + rec.header.payloadlen)).sum
      = (encodeContainer [⟨keyABC, 1, 0, [255, 216, 255]⟩]).length :=
  (record_tiling_sum [⟨keyABC, 1, 0, [255, 216, 255]⟩]
    (by decide) (by decide) (by decide)).2.2.2

/-- C7: on a 4-byte metadata sample, `detect_codec` tries utf-32-le
(width 4) then utf-16-le (width 2) and returns the first that decodes,
with its width; when neither decodes it returns the fatal outcome, which
makes the loop stop with a process-level `codecFailure` instead of
skipping the record. -/
theorem codec_detection_contract (b : Bytes) (_hlen : b.length = 4) :
    (detect_codec b = some (Codec.utf32le, 4) ↔ (tryDecode Codec.utf32le b).isSome = true) ∧
    (detect_codec b = some (Codec.utf16le, 2) ↔
      ((tryDecode Codec.utf32le b).isSome = false ∧
       (tryDecode Codec.utf16le b).isSome = true)) ∧
    (detect_codec b = none ↔
      ((tryDecode Codec.utf32le b).isSome = false ∧
       (tryDecode Codec.utf16le b).isSome = false)) ∧
    (∀ (file : Bytes) (offset : Nat), offset < file.length → 20 ≤ file.length - offset →
      (segmentPayload (payloadAt file offset)).1.take 4 = b → detect_codec b = none →
      readLoop file offset = ([], some (.codecFailure offset))) := by
  refine ⟨?_, ?_, ?_, ?_⟩
  · cases h32 : (tryDecode Codec.utf32le b).isSome <;>
      cases h16 : (tryDecode Codec.utf16le b).isSome <;>
      simp [detect_codec, detectCodecList, codecCandidates, h32, h16]
  · cases h32 : (tryDecode Codec.utf32le b).isSome <;>
      cases h16 : (tryDecode Codec.utf16le b).isSome <;>
      simp [detect_codec, detectCodecList, codecCandidates, h32, h16]
  · cases h32 : (tryDecode Codec.utf32le b).isSome <;>
      cases h16 : (tryDecode Codec.utf16le b).isSome <;>
      simp [detect_codec, detectCodecList, codecCandidates, h32, h16]
  · intro file offset h1 h2 hseg hnone
    apply readLoop_codecFail file offset h1 h2
    rw [hseg]
    exact hnone

/-- C7 witness: the first four UTF-16LE metadata bytes of `"th"` fail
utf-32-le and are accepted by utf-16-le. -/
theorem codec_detection_contract_witness :
    detect_codec [116, 0, 104, 0] = some (Codec.utf16le, 2) :=
  (codec_detection_contract [116, 0, 104, 0] (by decide)).2.1.mpr (by decide)

/-- C8: when the codec is detected but `meta_re` has no match in the
decoded metadata, the record is still emitted: all five parsed fields are
null in the inserted row, the raw metadata bytes are preserved verbatim
in the record and the row, and the loop continues with the next record. -/
theorem unparsed_metadata_null_fields (file : Bytes) (offset : Nat) (cw : Codec × Nat)
    (h1 : offset < file.length) (h2 : 20 ≤ file.length - offset)
    (hcodec : detect_codec ((segmentPayload (payloadAt file offset)).1.take 4) = some cw)
    (hnomatch : metaFindFirst
      (decodeIgnore cw.1 (segmentPayload (payloadAt file offset)).1) = none) :
    (recAt file offset).fields = none ∧
    (recAt file offset).metadata = (segmentPayload (payloadAt file offset)).1 ∧
    (rowOf (recAt file offset)).internalPath = none ∧
    (rowOf (recAt file offset)).unk = none ∧
    (rowOf (recAt file offset)).originalFilePath = none ∧
    (rowOf (recAt file offset)).timestamp = none ∧
    (rowOf (recAt file offset)).extra = none ∧
    (rowOf (recAt file offset)).rawMetadata = (segmentPayload (payloadAt file offset)).1 ∧
    readLoop file offset =
      (recAt file offset :: (readLoop file (offset + 20 + (payloadAt file offset).length)).1,
       (readLoop file (offset + 20 + (payloadAt file offset).length)).2) := by
  have hfields : (recAt file offset).fields = none := by
    simp [recAt, hcodec, hnomatch]
  refine ⟨hfields, by simp [recAt], by simp [rowOf, hfields], by simp [rowOf, hfields],
    by simp [rowOf, hfields], by simp [rowOf, hfields], by simp [rowOf, hfields],
    by simp [rowOf, recAt], ?_⟩
  exact readLoop_step file offset h1 h2 (by simp [hcodec])

/-- C8 witness: the marker-free container's metadata `[1, 2]` decodes
under utf-16-le but matches no grammar, and the row is all-null. -/
theorem unparsed_metadata_null_fields_witness :
    (recAt c2file 4).fields = none ∧ (rowOf (recAt c2file 4)).extra = none :=
  have h := unparsed_metadata_null_fields c2file 4 (Codec.utf16le, 2)
    (by decide) (by decide) (by decide) (by decide)
  ⟨h.1, h.2.2.2.2.2.2.1⟩

/-- C9: a payload beginning with the marker at position 0 has an empty
metadata sub-blob; parsing does not fail: `detect_codec` accepts the
empty sample as utf-32-le, the grammar yields the all-null result, and
the record is emitted with empty raw metadata and the whole payload as
the thumbnail, the loop continuing. -/
theorem empty_metadata_record (file : Bytes) (offset : Nat)
    (h1 : offset < file.length) (h2 : 20 ≤ file.length - offset)
    (h3 : jpeg_header.isPrefixOf (payloadAt file offset) = true) :
    (recAt file offset).metadata = [] ∧
    (recAt file offset).thumbnail = payloadAt file offset ∧
    detect_codec (([] : Bytes).take 4) = some (Codec.utf32le, 4) ∧
    (recAt file offset).fields = none ∧
    readLoop file offset =
      (recAt file offset :: (readLoop file (offset + 20 + (payloadAt file offset).length)).1,
       (readLoop file (offset + 20 + (payloadAt file offset).length)).2) := by
  have hseg := segmentPayload_marker_first _ h3
  have hdc : detect_codec (([] : Bytes).take 4) = some (Codec.utf32le, 4) := by decide
  refine ⟨by simp [recAt, hseg], by simp [recAt, hseg], hdc, ?_, ?_⟩
  · simp only [recAt, hseg]
    decide
  · apply readLoop_step file offset h1 h2
    rw [hseg]
    show detect_codec (([] : Bytes).take 4) ≠ none
    decide

/-- C9 witness: a container whose single payload starts with the marker. -/
theorem empty_metadata_record_witness :
    (recAt c9file 4).metadata = [] ∧ (recAt c9file 4).thumbnail = payloadAt c9file 4 :=
  have h := empty_metadata_record c9file 4 (by decide) (by decide) (by decide)
  ⟨h.1, h.2.1⟩

/-- C10: when the grammar matched but the fifth group is the empty
string, `if not xtra: xtra = None` normalises it, so the Extra value
handed to the storage sink is null rather than the empty string. -/
theorem empty_extra_normalized_null (r : BlobRec) (m : MetaMatch)
    (h1 : r.fields = some m) (h2 : m.g5 = []) :
    (rowOf r).extra = none := by
  simp [rowOf, h1, h2]

/-- C10 witness: a matched record with an empty fifth group. -/
theorem empty_extra_normalized_null_witness :
    (rowOf { offset := 0, header := ⟨keyABC, 0, 0, 0⟩, rawHeader := [], metadata := [],
             thumbnail := [], fields := some ⟨[97], [], [], strText "1234567890", []⟩ }).extra
      = none :=
  empty_extra_normalized_null _ ⟨[97], [], [], strText "1234567890", []⟩ rfl rfl
